import Mathlib

/-!
Shallow embedding of `src/python/lib/Protocol/Publish.py` (KeckObservatory/POT),
the publish/subscribe protocol layer: `Server` (publisher with a publication-id
sequencer) and `Client` (subscriber with a weak-reference callback registry and
a background receive loop).

Modelling conventions:
 - Python `bytes` values are `List Nat` of byte values.
 - Python `str` values are Lean `String`; `str.encode()` is UTF-8 (`strBytes`).
 - The JSON codec (`Json` module, imported by the source but not part of it)
   and the weak-reference helper (`WeakRef`) are abstracted: `Json.loads` is a
   parameter `loads : Bytes → Option Event` (`none` = decode failure), and a
   registered callback is a `CB` record carrying its liveness (whether the
   weak reference still resolves) and whether invoking it raises.
 - Socket operations (connect/bind/send/subscribe) are modelled by their
   observable data: `publish` returns the list of frames sent, `propagate`
   returns the list of callback invocations performed.
 - Exceptions become `Except`/`Option` results; an uncaught exception in the
   receive loop is the `err` field of `RunResult`.
-/

namespace POT.Publish

/-- Byte strings (Python `bytes`) as lists of byte values. -/
abbrev Bytes := List Nat

/-- UTF-8 encoding of one character, as performed by Python `str.encode()`. -/
def charUTF8 (c : Char) : Bytes :=
  let n := c.toNat
  if n < 0x80 then [n]
  else if n < 0x800 then
    [0xC0 ||| (n >>> 6), 0x80 ||| (n &&& 0x3F)]
  else if n < 0x10000 then
    [0xE0 ||| (n >>> 12), 0x80 ||| ((n >>> 6) &&& 0x3F), 0x80 ||| (n &&& 0x3F)]
  else
    [0xF0 ||| (n >>> 18), 0x80 ||| ((n >>> 12) &&& 0x3F),
     0x80 ||| ((n >>> 6) &&& 0x3F), 0x80 ||| (n &&& 0x3F)]

/-- Python `str.encode()`: the UTF-8 byte string of a string. -/
def strBytes (s : String) : Bytes := s.data.flatMap charUTF8

/-- The bytes Python `bytes.split()` treats as whitespace. -/
def isSpaceByte (b : Nat) : Bool :=
  b == 32 || b == 9 || b == 10 || b == 13 || b == 11 || b == 12

/-- Python `message.split(maxsplit=1)` with default (whitespace) separator,
followed by unpacking into exactly two values: leading whitespace is skipped,
the first whitespace-free token is taken, the whitespace run after it is
consumed, and the remainder is kept verbatim.  `none` models the `ValueError`
raised when the split yields fewer than two parts (`Client.propagate`, line 65
of the source). -/
def pySplit1 (bs : Bytes) : Option (Bytes × Bytes) :=
  let s1 := bs.dropWhile isSpaceByte
  let tok := s1.takeWhile (fun b => !isSpaceByte b)
  let rest := (s1.dropWhile (fun b => !isSpaceByte b)).dropWhile isSpaceByte
  if tok = [] then none
  else if rest = [] then none
  else some (tok, rest)

/-- JSON-style values stored in an event mapping. -/
inductive JVal where
  | jstr : String → JVal
  | jnum : Nat → JVal
  | jbool : Bool → JVal
  | jnull : JVal
  deriving DecidableEq

/-- A Python dict used as an event: an insertion-ordered mapping from field
names to values (keys are unique in any dict the source builds). -/
abbrev Event := List (String × JVal)

/-- Python `d[k]` lookup returning `none` for a `KeyError`. -/
def getField : Event → String → Option JVal
  | [], _ => none
  | (k', v) :: rest, k => if k' = k then some v else getField rest k

/-- Python `d[k] = v`: overwrite the field in place if present, append it
otherwise (dict insertion-order semantics). -/
def setField : Event → String → JVal → Event
  | [], k, v => [(k, v)]
  | (k', v') :: rest, k, v =>
      if k' = k then (k, v) :: rest else (k', v') :: setField rest k v

/-- `Server.pub_id_min` (source line 207). -/
def pub_id_min : Nat := 0

/-- `Server.pub_id_max` (source line 208). -/
def pub_id_max : Nat := 0xFFFFFFFF

/-- `Server.pub_id_reset` (source lines 244-248): the counter state after
`self.pub_id = itertools.count(self.pub_id_min)`.  The sequencer state is the
value the counter will yield on its next call. -/
def pub_id_reset : Nat := pub_id_min

/-- `Server.pub_id_next` (source lines 224-241): returns the id handed to the
caller and the sequencer state after the call.  `next(self.pub_id)` yields the
current state and advances it; if the yielded id reached `pub_id_max` the
counter is reset, and if it somehow exceeded `pub_id_max` the id is clamped to
`pub_id_min` and the fresh counter advanced once more. -/
def pub_id_next (s : Nat) : Nat × Nat :=
  let pub_id := s
  let s1 := s + 1
  if pub_id ≥ pub_id_max then
    let s2 := pub_id_reset
    if pub_id > pub_id_max then
      (pub_id_min, s2 + 1)
    else
      (pub_id, s2)
  else
    (pub_id, s1)

/-- The sequencer state after `k` calls of `pub_id_next` on a freshly
constructed `Server` (whose `__init__` calls `pub_id_reset`, line 221). -/
def seq_state : Nat → Nat
  | 0 => pub_id_reset
  | k + 1 => (pub_id_next (seq_state k)).2

/-- The id returned by call number `k` (0-based) of `pub_id_next` on a freshly
constructed `Server`. -/
def pub_id_ret (k : Nat) : Nat := (pub_id_next (seq_state k)).1

/-- Publisher-side failures: `KeyError` when `message["name"]` is missing
(source line 262), `TypeError` when the name is not a string and the
concatenation at line 268 fails. -/
inductive PubErr where
  | keyError : PubErr
  | typeError : PubErr
  deriving DecidableEq

/-- The bulk frame built at source lines 271-276:
`(topic + ";bulk " + str(pub_id) + " ").encode() + bulk`, the raw payload
appended verbatim. -/
def encode_bulk (topic : String) (pub_id : Nat) (payload : Bytes) : Bytes :=
  strBytes (topic ++ ";bulk " ++ Nat.repr pub_id ++ " ") ++ payload

/-- `Server.publish` (source lines 251-276).  `dumps` abstracts `Json.dumps`
(the `Json` module is not under src/).  Returns the sequencer state after the
call (the sequencer advances at line 261, before the `message["name"]` lookup
at line 262) and either an error or the list of frames sent, in send order,
together with the event mapping of the caller as mutated in place. -/
def publish (dumps : Event → String) (s : Nat) (message : Event)
    (bulk : Option Bytes) : Nat × Except PubErr (List Bytes × Event) :=
  let r := pub_id_next s
  let pub_id := r.1
  let s1 := r.2
  match getField message "name" with
  | none => (s1, .error .keyError)
  | some nameVal =>
      let message1 := setField message "id" (.jnum pub_id)
      let message2 :=
        if bulk.isSome then setField message1 "bulk" (.jbool true) else message1
      match nameVal with
      | .jstr topic =>
          let frame1 := strBytes (topic ++ " " ++ dumps message2)
          match bulk with
          | none => (s1, .ok ([frame1], message2))
          | some b => (s1, .ok ([frame1, encode_bulk topic pub_id b], message2))
      | _ => (s1, .error .typeError)

/-- A registered callback as seen through its weak reference: `alive` is
whether `reference()` still resolves to the callback, `raises` whether the
callback raises when invoked, `cbId` identifies the callback in the
invocation log. -/
structure CB where
  cbId : Nat
  alive : Bool
  raises : Bool
  deriving DecidableEq

/-- Python dict lookup over an association list (first matching key). -/
def dictGet {α : Type} : List (Bytes × α) → Bytes → Option α
  | [], _ => none
  | e :: d, k => if e.1 = k then some e.2 else dictGet d k

/-- Python dict store: replace the entry in place if the key is present,
append otherwise. -/
def dictSet {α : Type} : List (Bytes × α) → Bytes → α → List (Bytes × α)
  | [], k, v => [(k, v)]
  | e :: d, k, v => if e.1 = k then (k, v) :: d else e :: dictSet d k v

/-- Python `del d[k]`. -/
def dictDel {α : Type} : List (Bytes × α) → Bytes → List (Bytes × α)
  | [], _ => []
  | e :: d, k => if e.1 = k then dictDel d k else e :: dictDel d k

/-- The mutable state of a `Client` instance: the two callback registries and
the shutdown flag (source lines 40-42).  The socket and thread are not data. -/
structure ClientState where
  callback_all : List CB
  callback_specific : List (Bytes × List CB)
  shutdown : Bool
  deriving DecidableEq

/-- The state `Client.__init__` establishes (source lines 40-42): empty
registries, `shutdown = False`. -/
def clientInit : ClientState := ⟨[], [], false⟩

/-- What a callback receives: raw bytes for a bulk frame, the parsed mapping
otherwise. -/
inductive Payload where
  | raw : Bytes → Payload
  | parsed : Event → Payload
  deriving DecidableEq

/-- Subscriber-side failures that escape `propagate`: the `ValueError` from
unpacking the split (line 65) and a decode failure from `message.decode()` or
`Json.loads(message)` (lines 70-71). -/
inductive PropErr where
  | valueError : PropErr
  | decodeError : PropErr
  deriving DecidableEq

/-- One walk over a reference list (source lines 78-88 and 110-120): the
invocations performed, the exceptions caught and logged by the bare `except`,
and the `invalid` list of dead references collected for removal. -/
structure WalkOut where
  log : List (Nat × Payload)
  caught : List Nat
  invalid : List CB
  deriving DecidableEq

/-- The per-reference loop body: a live callback is invoked (and if it raises,
the exception is caught and printed); a dead reference is appended to
`invalid`, and the subsequent `callback(message)` call on `None` raises a
`TypeError` that the same bare `except` catches and prints. -/
def invokeAll (payload : Payload) : List CB → WalkOut
  | [] => ⟨[], [], []⟩
  | r :: rest =>
      let tail := invokeAll payload rest
      if r.alive then
        if r.raises then
          ⟨(r.cbId, payload) :: tail.log, r.cbId :: tail.caught, tail.invalid⟩
        else
          ⟨(r.cbId, payload) :: tail.log, tail.caught, tail.invalid⟩
      else
        ⟨tail.log, r.cbId :: tail.caught, r :: tail.invalid⟩

/-- Python `list.remove(x)`: delete the first element equal to `x`. -/
def listRemove : List CB → CB → List CB
  | [], _ => []
  | y :: rest, x => if y = x then rest else y :: listRemove rest x

/-- `for reference in invalid: references.remove(reference)`
(source lines 90-91 and 122-123). -/
def removeInvalid (refs : List CB) (invalid : List CB) : List CB :=
  invalid.foldl listRemove refs

/-- The dispatch half of `Client.propagate` (source lines 75-126): walk the
all-topics list, prune it, then walk and prune the topic-specific list,
deleting the dict entry of the topic when it empties. -/
def dispatchLists (st : ClientState) (topic : Bytes) (payload : Payload) :
    ClientState × List (Nat × Payload) × List Nat :=
  let w1 := invokeAll payload st.callback_all
  let all1 := removeInvalid st.callback_all w1.invalid
  let st1 : ClientState := ⟨all1, st.callback_specific, st.shutdown⟩
  if st1.callback_specific = [] then
    (st1, w1.log, w1.caught)
  else
    match dictGet st1.callback_specific topic with
    | none => (st1, w1.log, w1.caught)
    | some refs =>
        let w2 := invokeAll payload refs
        let refs1 := removeInvalid refs w2.invalid
        let spec1 :=
          if refs1.length = 0 then dictDel st1.callback_specific topic
          else dictSet st1.callback_specific topic refs1
        (⟨all1, spec1, st.shutdown⟩, w1.log ++ w2.log, w1.caught ++ w2.caught)

/-- `b"bulk"`. -/
def bulkBytes : Bytes := [98, 117, 108, 107]

/-- Python `topic[-4:]`: the last four bytes (the whole string when shorter). -/
def lastFour (l : Bytes) : Bytes := l.drop (l.length - 4)

/-- The body-interpretation step of `Client.propagate` (source lines 67-71):
a topic whose last four bytes are `b"bulk"` keeps the body as raw bytes;
otherwise the body is decoded and parsed, `none` from `loads` modelling the
exception a failed `message.decode()` or `Json.loads(message)` raises. -/
def decodePayload (loads : Bytes → Option Event) (topic body : Bytes) :
    Except PropErr Payload :=
  if lastFour topic = bulkBytes then .ok (.raw body)
  else
    match loads body with
    | none => .error .decodeError
    | some ev => .ok (.parsed ev)

/-- `Client.propagate` (source lines 49-126).  `loads` abstracts the decode
and `Json.loads` of lines 70-71 (the `Json` module is not under src/).
Returns the new client state, the invocation log and the list of exceptions
caught at the dispatch site, or the exception that escapes `propagate`. -/
def propagate (loads : Bytes → Option Event) (st : ClientState) (frame : Bytes) :
    Except PropErr (ClientState × List (Nat × Payload) × List Nat) :=
  if st.callback_all = [] ∧ st.callback_specific = [] then
    .ok (st, [], [])
  else
    match pySplit1 frame with
    | none => .error .valueError
    | some (topic, body) =>
        match decodePayload loads topic body with
        | .error e => .error e
        | .ok payload => .ok (dispatchLists st topic payload)

/-- `Client.register` (source lines 129-161); the socket-level `subscribe`
call has no data content here.  The callable type-check always passes for a
`CB` value. -/
def register (st : ClientState) (cb : CB) (topic : Option String) : ClientState :=
  match topic with
  | none => ⟨st.callback_all ++ [cb], st.callback_specific, st.shutdown⟩
  | some t =>
      let tb := strBytes t.trim
      let callbacks := (dictGet st.callback_specific tb).getD []
      ⟨st.callback_all, dictSet st.callback_specific tb (callbacks ++ [cb]),
       st.shutdown⟩

/-- The outcome of running the receive loop over a finite arrival sequence. -/
structure RunResult where
  state : ClientState
  log : List (Nat × Payload)
  caught : List Nat
  err : Option PropErr
  deriving DecidableEq

/-- `Client.run` (source lines 164-177) over a list of frames arriving in
order: each poll iteration first checks `self.shutdown == False`, then
receives one frame and calls `propagate` with no exception handling around it,
so an exception escaping `propagate` escapes `run` and terminates the loop
thread, leaving the remaining frames unprocessed. -/
def runFrames (loads : Bytes → Option Event) (st : ClientState) :
    List Bytes → RunResult
  | [] => ⟨st, [], [], none⟩
  | f :: rest =>
      if st.shutdown then ⟨st, [], [], none⟩
      else
        match propagate loads st f with
        | .error e => ⟨st, [], [], some e⟩
        | .ok (st1, log1, caught1) =>
            let r := runFrames loads st1 rest
            ⟨r.state, log1 ++ r.log, caught1 ++ r.caught, r.err⟩

/-! Helper lemmas about the event mapping. -/

theorem getField_setField_self (e : Event) (k : String) (v : JVal) :
    getField (setField e k v) k = some v := by
  induction e with
  | nil => simp [setField, getField]
  | cons p rest ih =>
      by_cases hpk : p.1 = k
      · simp [setField, hpk, getField]
      · simp [setField, hpk, getField, ih]

theorem getField_setField_ne (e : Event) (k k' : String) (v : JVal)
    (h : k' ≠ k) : getField (setField e k v) k' = getField e k' := by
  induction e with
  | nil => simp [setField, getField, h.symm]
  | cons p rest ih =>
      by_cases hpk : p.1 = k
      · simp [setField, hpk, getField, h.symm]
      · by_cases hpk' : p.1 = k'
        · simp [setField, hpk, getField, hpk', h, ih]
        · simp [setField, hpk, getField, hpk', h, ih]

/-! Helper lemmas about the publication-id sequencer. -/

theorem pub_id_next_lt {x : Nat} (h : x < pub_id_max) :
    pub_id_next x = (x, x + 1) := by
  unfold pub_id_next
  rw [if_neg (by omega)]

theorem pub_id_next_max : pub_id_next pub_id_max = (pub_id_max, pub_id_min) := by
  unfold pub_id_next
  rw [if_pos (le_refl _), if_neg (lt_irrefl _)]
  rfl

theorem pub_id_next_fst {x : Nat} (h : x ≤ pub_id_max) :
    (pub_id_next x).1 = x := by
  by_cases hx : x < pub_id_max
  · rw [pub_id_next_lt hx]
  · have hxe : x = pub_id_max := by omega
    rw [hxe, pub_id_next_max]

theorem seq_state_succ (k : Nat) :
    seq_state (k + 1) = (pub_id_next (seq_state k)).2 := rfl

theorem pub_id_ret_def (k : Nat) :
    pub_id_ret k = (pub_id_next (seq_state k)).1 := rfl

theorem seq_state_eq : ∀ k, k ≤ pub_id_max → seq_state k = k
  | 0, _ => rfl
  | k + 1, h => by
      have hk : k < pub_id_max := by omega
      have ih := seq_state_eq k (Nat.le_of_lt hk)
      rw [seq_state_succ, ih, pub_id_next_lt hk]

/-- C3: publication ids returned by consecutive `pub_id_next` calls on one
`Server` are strictly increasing (call `k` returns `k`) until the returned
value reaches `pub_id_max = 0xFFFFFFFF`, after which the next call returns
`pub_id_min = 0`; no two consecutive non-wrapped calls return the same id. -/
theorem pub_id_strictly_increasing (k : Nat) (h : k ≤ pub_id_max) :
    pub_id_ret k = k ∧
    (k < pub_id_max →
      pub_id_ret k < pub_id_ret (k + 1) ∧ pub_id_ret k ≠ pub_id_ret (k + 1)) ∧
    pub_id_ret (pub_id_max + 1) = pub_id_min := by
  have h1 : pub_id_ret k = k := by
    rw [pub_id_ret_def, seq_state_eq k h, pub_id_next_fst h]
  refine ⟨h1, ?_, ?_⟩
  · intro hk
    have h2 : pub_id_ret (k + 1) = k + 1 := by
      rw [pub_id_ret_def, seq_state_eq (k + 1) (by omega),
        pub_id_next_fst (by omega)]
    omega
  · have hmax : seq_state (pub_id_max + 1) = pub_id_min := by
      rw [seq_state_succ, seq_state_eq pub_id_max (le_refl _), pub_id_next_max]
    have hmin : pub_id_min ≤ pub_id_max := by
      unfold pub_id_min pub_id_max
      omega
    rw [pub_id_ret_def, hmax, pub_id_next_fst hmin]

theorem pub_id_strictly_increasing_witness :
    (5 : Nat) ≤ pub_id_max ∧
      (pub_id_ret 5 = 5 ∧
        (5 < pub_id_max →
          pub_id_ret 5 < pub_id_ret (5 + 1) ∧ pub_id_ret 5 ≠ pub_id_ret (5 + 1)) ∧
        pub_id_ret (pub_id_max + 1) = pub_id_min) :=
  ⟨by decide, pub_id_strictly_increasing 5 (by decide)⟩

/-- C4: for an event with a `name` field and a provided bulk payload,
`publish` sends exactly two frames in order: first the normal frame
`topic + " " + Json.dumps(message)` (with the id and bulk fields already
stamped), then an independent frame `topic + ";bulk " + str(pub_id) + " "`
encoded, with the raw bulk payload appended verbatim, carrying the same
publication id as the one stamped into the event. -/
theorem publish_bulk_two_frames (dumps : Event → String) (s : Nat) (e : Event)
    (topic : String) (b : Bytes)
    (h : getField e "name" = some (JVal.jstr topic)) :
    publish dumps s e (some b) =
      ((pub_id_next s).2,
        .ok ([strBytes (topic ++ " " ++
                dumps (setField (setField e "id" (JVal.jnum (pub_id_next s).1))
                  "bulk" (JVal.jbool true))),
              strBytes (topic ++ ";bulk " ++ Nat.repr (pub_id_next s).1 ++ " ") ++ b],
          setField (setField e "id" (JVal.jnum (pub_id_next s).1)) "bulk"
            (JVal.jbool true))) := by
  simp [publish, h, encode_bulk]

theorem publish_bulk_two_frames_witness :
    getField [("name", JVal.jstr "frame")] "name" = some (JVal.jstr "frame") ∧
      publish (fun _ => "X") 5 [("name", JVal.jstr "frame")] (some [0, 1, 2]) =
        ((pub_id_next 5).2,
          .ok ([strBytes ("frame" ++ " " ++
                  (fun (_ : Event) => "X")
                    (setField (setField [("name", JVal.jstr "frame")] "id"
                      (JVal.jnum (pub_id_next 5).1)) "bulk" (JVal.jbool true))),
                strBytes ("frame" ++ ";bulk " ++ Nat.repr (pub_id_next 5).1 ++ " ")
                  ++ [0, 1, 2]],
            setField (setField [("name", JVal.jstr "frame")] "id"
              (JVal.jnum (pub_id_next 5).1)) "bulk" (JVal.jbool true))) :=
  ⟨by decide,
   publish_bulk_two_frames (fun _ => "X") 5 [("name", JVal.jstr "frame")] "frame"
     [0, 1, 2] (by decide)⟩

/-- C5: for an event mapping with a `name` field, `publish` mutates the
mapping of the caller in place: the `id` field is set to the freshly obtained
publication id (overwriting any existing value), `bulk` is set to `true`
exactly when the `bulk` argument is provided, and every other field is left
unchanged. -/
theorem publish_stamps_event (dumps : Event → String) (s : Nat) (e : Event)
    (topic : String) (bo : Option Bytes)
    (h : getField e "name" = some (JVal.jstr topic)) :
    ∃ frames ev2,
      publish dumps s e bo = ((pub_id_next s).2, .ok (frames, ev2)) ∧
      getField ev2 "id" = some (JVal.jnum (pub_id_next s).1) ∧
      (bo.isSome = true → getField ev2 "bulk" = some (JVal.jbool true)) ∧
      (∀ k, k ≠ "id" → k ≠ "bulk" → getField ev2 k = getField e k) ∧
      (bo = none → ∀ k, k ≠ "id" → getField ev2 k = getField e k) := by
  cases bo with
  | none =>
      refine ⟨[strBytes (topic ++ " " ++
          dumps (setField e "id" (JVal.jnum (pub_id_next s).1)))],
        setField e "id" (JVal.jnum (pub_id_next s).1), ?_, ?_, ?_, ?_, ?_⟩
      · simp [publish, h]
      · exact getField_setField_self e "id" _
      · intro hc
        simp at hc
      · intro k hk1 _
        exact getField_setField_ne e "id" k _ hk1
      · intro _ k hk1
        exact getField_setField_ne e "id" k _ hk1
  | some b =>
      refine ⟨[strBytes (topic ++ " " ++
          dumps (setField (setField e "id" (JVal.jnum (pub_id_next s).1)) "bulk"
            (JVal.jbool true))),
          encode_bulk topic (pub_id_next s).1 b],
        setField (setField e "id" (JVal.jnum (pub_id_next s).1)) "bulk"
          (JVal.jbool true), ?_, ?_, ?_, ?_, ?_⟩
      · simp [publish, h]
      · rw [getField_setField_ne _ "bulk" "id" _ (by decide)]
        exact getField_setField_self e "id" _
      · intro _
        exact getField_setField_self _ "bulk" _
      · intro k hk1 hk2
        rw [getField_setField_ne _ "bulk" k _ hk2]
        exact getField_setField_ne e "id" k _ hk1
      · intro hn
        cases hn

theorem publish_stamps_event_witness :
    getField [("name", JVal.jstr "tick"), ("id", JVal.jnum 99)] "name" =
        some (JVal.jstr "tick") ∧
      ∃ frames ev2,
        publish (fun _ => "Y") 0 [("name", JVal.jstr "tick"), ("id", JVal.jnum 99)]
            none = ((pub_id_next 0).2, .ok (frames, ev2)) ∧
        getField ev2 "id" = some (JVal.jnum (pub_id_next 0).1) ∧
        ((none : Option Bytes).isSome = true →
          getField ev2 "bulk" = some (JVal.jbool true)) ∧
        (∀ k, k ≠ "id" → k ≠ "bulk" →
          getField ev2 k =
            getField [("name", JVal.jstr "tick"), ("id", JVal.jnum 99)] k) ∧
        ((none : Option Bytes) = none → ∀ k, k ≠ "id" →
          getField ev2 k =
            getField [("name", JVal.jstr "tick"), ("id", JVal.jnum 99)] k) :=
  ⟨by decide,
   publish_stamps_event (fun _ => "Y") 0
     [("name", JVal.jstr "tick"), ("id", JVal.jnum 99)] "tick" none (by decide)⟩

/-- C9: for an event mapping lacking a `name` key, `publish` fails with a
`KeyError`, sending no frame and returning no mutated event, but the
sequencer advanced before the lookup, so the failed call irrevocably consumes
one publication id and the next successful `publish` is stamped with the
following id, not the consumed one. -/
theorem publish_missing_name_consumes_id (dumps : Event → String) (s : Nat)
    (e : Event) (bo : Option Bytes) (h : getField e "name" = none)
    (hs : s < pub_id_max) :
    publish dumps s e bo = (s + 1, .error .keyError) ∧
    (∀ (dumps2 : Event → String) (e2 : Event) (topic : String)
        (bo2 : Option Bytes),
      getField e2 "name" = some (JVal.jstr topic) →
      ∃ frames ev2,
        publish dumps2 (s + 1) e2 bo2 =
          ((pub_id_next (s + 1)).2, .ok (frames, ev2)) ∧
        getField ev2 "id" = some (JVal.jnum (s + 1))) ∧
    s + 1 ≠ s := by
  refine ⟨?_, ?_, by omega⟩
  · simp [publish, h, pub_id_next_lt hs]
  · intro dumps2 e2 topic bo2 h2
    have hfst : (pub_id_next (s + 1)).1 = s + 1 := pub_id_next_fst (by omega)
    cases bo2 with
    | none =>
        refine ⟨[strBytes (topic ++ " " ++
            dumps2 (setField e2 "id" (JVal.jnum (pub_id_next (s + 1)).1)))],
          setField e2 "id" (JVal.jnum (pub_id_next (s + 1)).1), ?_, ?_⟩
        · simp [publish, h2]
        · rw [hfst]
          exact getField_setField_self e2 "id" _
    | some b2 =>
        refine ⟨[strBytes (topic ++ " " ++
            dumps2 (setField (setField e2 "id" (JVal.jnum (pub_id_next (s + 1)).1))
              "bulk" (JVal.jbool true))),
            encode_bulk topic (pub_id_next (s + 1)).1 b2],
          setField (setField e2 "id" (JVal.jnum (pub_id_next (s + 1)).1)) "bulk"
            (JVal.jbool true), ?_, ?_⟩
        · simp [publish, h2]
        · rw [hfst, getField_setField_ne _ "bulk" "id" _ (by decide)]
          exact getField_setField_self e2 "id" _

theorem publish_missing_name_consumes_id_witness :
    getField [("value", JVal.jnum 1)] "name" = none ∧ (3 : Nat) < pub_id_max ∧
      (publish (fun _ => "Z") 3 [("value", JVal.jnum 1)] none =
          (3 + 1, .error .keyError) ∧
        (∀ (dumps2 : Event → String) (e2 : Event) (topic : String)
            (bo2 : Option Bytes),
          getField e2 "name" = some (JVal.jstr topic) →
          ∃ frames ev2,
            publish dumps2 (3 + 1) e2 bo2 =
              ((pub_id_next (3 + 1)).2, .ok (frames, ev2)) ∧
            getField ev2 "id" = some (JVal.jnum (3 + 1))) ∧
        3 + 1 ≠ 3) :=
  ⟨by decide, by decide,
   publish_missing_name_consumes_id (fun _ => "Z") 3 [("value", JVal.jnum 1)]
     none (by decide) (by decide)⟩

/-! Helper lemmas about the dispatch walk of `Client.propagate`. -/

theorem invokeAll_log (p : Payload) (refs : List CB) :
    (invokeAll p refs).log =
      (refs.filter (fun r => r.alive)).map (fun r => (r.cbId, p)) := by
  induction refs with
  | nil => rfl
  | cons r rest ih =>
      by_cases ha : r.alive = true
      · by_cases hr : r.raises = true <;>
          simp [invokeAll, ha, hr, ih, List.filter_cons]
      · simp [invokeAll, ha, ih, List.filter_cons]

theorem invokeAll_caught (p : Payload) (refs : List CB) :
    (invokeAll p refs).caught =
      (refs.filter (fun r => !r.alive || r.raises)).map (fun r => r.cbId) := by
  induction refs with
  | nil => rfl
  | cons r rest ih =>
      by_cases ha : r.alive = true
      · by_cases hr : r.raises = true <;>
          simp [invokeAll, ha, hr, ih, List.filter_cons]
      · simp [invokeAll, ha, ih, List.filter_cons,
          Bool.not_eq_true _ ▸ ha]
  -- the dead case: !r.alive = true

theorem invokeAll_invalid (p : Payload) (refs : List CB) :
    (invokeAll p refs).invalid = refs.filter (fun r => !r.alive) := by
  induction refs with
  | nil => rfl
  | cons r rest ih =>
      by_cases ha : r.alive = true
      · by_cases hr : r.raises = true <;>
          simp [invokeAll, ha, hr, ih, List.filter_cons]
      · simp [invokeAll, ha, ih, List.filter_cons]

theorem foldl_listRemove_cons (ys : List CB) (x : CB) (l : List CB)
    (h : ∀ y ∈ ys, y ≠ x) :
    ys.foldl listRemove (x :: l) = x :: ys.foldl listRemove l := by
  induction ys generalizing l with
  | nil => rfl
  | cons y ys ih =>
      have hxy : ¬(x = y) := fun he => h y (by simp) he.symm
      rw [List.foldl_cons, List.foldl_cons]
      have hstep : listRemove (x :: l) y = x :: listRemove l y := by
        simp [listRemove, hxy]
      rw [hstep]
      exact ih (listRemove l y) (fun y2 hy2 => h y2 (by simp [hy2]))

theorem foldl_listRemove_filter (l : List CB) (p : CB → Bool) :
    (l.filter p).foldl listRemove l = l.filter (fun x => !p x) := by
  induction l with
  | nil => rfl
  | cons x xs ih =>
      by_cases hx : p x = true
      · rw [List.filter_cons_of_pos hx, List.foldl_cons]
        have hstep : listRemove (x :: xs) x = xs := by simp [listRemove]
        rw [hstep, ih, List.filter_cons_of_neg (by simp [hx])]
      · rw [List.filter_cons_of_neg hx]
        have hne : ∀ y ∈ xs.filter p, y ≠ x := by
          intro y hy he
          have hpy : p y = true := (List.mem_filter.mp hy).2
          rw [he] at hpy
          exact hx hpy
        rw [foldl_listRemove_cons _ _ _ hne, ih,
          List.filter_cons_of_pos (by simp [hx])]

theorem removeInvalid_prunes (p : Payload) (refs : List CB) :
    removeInvalid refs (invokeAll p refs).invalid =
      refs.filter (fun r => r.alive) := by
  rw [invokeAll_invalid]
  unfold removeInvalid
  rw [foldl_listRemove_filter]
  simp only [Bool.not_not]

/-! Helper lemmas about the dict operations. -/

theorem dictGet_dictSet_self {α : Type} (d : List (Bytes × α)) (k : Bytes)
    (v : α) : dictGet (dictSet d k v) k = some v := by
  induction d with
  | nil => simp [dictSet, dictGet]
  | cons e d ih =>
      by_cases he : e.1 = k
      · simp [dictSet, he, dictGet]
      · simp [dictSet, he, dictGet, ih]

theorem dictGet_dictDel_self {α : Type} (d : List (Bytes × α)) (k : Bytes) :
    dictGet (dictDel d k) k = none := by
  induction d with
  | nil => rfl
  | cons e d ih =>
      by_cases he : e.1 = k
      · simp [dictDel, he, ih]
      · simp [dictDel, he, dictGet, ih]

/-! Specification of `dispatchLists` in the two dict-lookup cases. -/

theorem dispatchLists_some (st : ClientState) (t : Bytes) (p : Payload)
    (refs : List CB) (h : dictGet st.callback_specific t = some refs) :
    dispatchLists st t p =
      (⟨st.callback_all.filter (fun r => r.alive),
        (if (refs.filter (fun r => r.alive)).length = 0
         then dictDel st.callback_specific t
         else dictSet st.callback_specific t (refs.filter (fun r => r.alive))),
        st.shutdown⟩,
       (st.callback_all.filter (fun r => r.alive)).map (fun r => (r.cbId, p)) ++
         (refs.filter (fun r => r.alive)).map (fun r => (r.cbId, p)),
       (st.callback_all.filter (fun r => !r.alive || r.raises)).map
           (fun r => r.cbId) ++
         (refs.filter (fun r => !r.alive || r.raises)).map (fun r => r.cbId)) := by
  have hne : ¬(st.callback_specific = []) := by
    intro he
    rw [he] at h
    cases h
  unfold dispatchLists
  dsimp only
  rw [if_neg hne, h]
  dsimp only
  simp only [invokeAll_log, invokeAll_caught, removeInvalid_prunes]

theorem dispatchLists_none (st : ClientState) (t : Bytes) (p : Payload)
    (h : dictGet st.callback_specific t = none) :
    dispatchLists st t p =
      (⟨st.callback_all.filter (fun r => r.alive), st.callback_specific,
        st.shutdown⟩,
       (st.callback_all.filter (fun r => r.alive)).map (fun r => (r.cbId, p)),
       (st.callback_all.filter (fun r => !r.alive || r.raises)).map
         (fun r => r.cbId)) := by
  unfold dispatchLists
  dsimp only
  by_cases hsp : st.callback_specific = []
  · rw [if_pos hsp]
    simp only [invokeAll_log, invokeAll_caught, removeInvalid_prunes]
  · rw [if_neg hsp, h]
    simp only [invokeAll_log, invokeAll_caught, removeInvalid_prunes]

/-! Specification of `propagate` around the dispatch. -/

theorem propagate_listening (loads : Bytes → Option Event) (st : ClientState)
    (frame t body : Bytes) (p : Payload)
    (hsplit : pySplit1 frame = some (t, body))
    (hdec : decodePayload loads t body = .ok p)
    (hne : ¬(st.callback_all = [] ∧ st.callback_specific = [])) :
    propagate loads st frame = .ok (dispatchLists st t p) := by
  unfold propagate
  rw [if_neg hne, hsplit]
  dsimp only
  rw [hdec]

theorem propagate_nobody (loads : Bytes → Option Event) (st : ClientState)
    (frame : Bytes) (h : st.callback_all = [] ∧ st.callback_specific = []) :
    propagate loads st frame = .ok (st, [], []) := by
  unfold propagate
  rw [if_pos h]

/-- C8: for every dispatched message, the callbacks registered for all topics
are invoked before the callbacks registered for the specific topic of the message,
and within each of the two lists callbacks are invoked in registration
order: the invocation log is exactly the all-topics list (in order, live
entries) followed by the list of the topic (in order, live entries). -/
theorem dispatch_order (loads : Bytes → Option Event) (st : ClientState)
    (frame t body : Bytes) (p : Payload) (refs : List CB)
    (hsplit : pySplit1 frame = some (t, body))
    (hdec : decodePayload loads t body = .ok p)
    (hget : dictGet st.callback_specific t = some refs) :
    ∃ st2 caught, propagate loads st frame =
      .ok (st2,
        (st.callback_all.filter (fun r => r.alive)).map (fun r => (r.cbId, p)) ++
          (refs.filter (fun r => r.alive)).map (fun r => (r.cbId, p)),
        caught) := by
  have hne : ¬(st.callback_all = [] ∧ st.callback_specific = []) := by
    intro hc
    rw [hc.2] at hget
    cases hget
  rw [propagate_listening loads st frame t body p hsplit hdec hne,
    dispatchLists_some st t p refs hget]
  exact ⟨_, _, rfl⟩

theorem dispatch_order_witness :
    pySplit1 (strBytes "tick ok") = some (strBytes "tick", strBytes "ok") ∧
    decodePayload (fun b => if b = strBytes "ok" then some [] else none)
        (strBytes "tick") (strBytes "ok") = .ok (Payload.parsed []) ∧
    dictGet [(strBytes "tick", [CB.mk 1 true false, CB.mk 2 true true])]
        (strBytes "tick") = some [CB.mk 1 true false, CB.mk 2 true true] ∧
    ∃ st2 caught,
      propagate (fun b => if b = strBytes "ok" then some [] else none)
          ⟨[CB.mk 0 true false],
           [(strBytes "tick", [CB.mk 1 true false, CB.mk 2 true true])], false⟩
          (strBytes "tick ok") =
        .ok (st2,
          (([CB.mk 0 true false].filter (fun r => r.alive)).map
              (fun r => (r.cbId, Payload.parsed []))) ++
            (([CB.mk 1 true false, CB.mk 2 true true].filter
                (fun r => r.alive)).map (fun r => (r.cbId, Payload.parsed []))),
          caught) :=
  ⟨by decide, by rfl, by decide,
   dispatch_order (fun b => if b = strBytes "ok" then some [] else none)
     ⟨[CB.mk 0 true false],
      [(strBytes "tick", [CB.mk 1 true false, CB.mk 2 true true])], false⟩
     (strBytes "tick ok") (strBytes "tick") (strBytes "ok") (Payload.parsed [])
     [CB.mk 1 true false, CB.mk 2 true true] (by decide) (by rfl) (by decide)⟩

/-- C7: for every dispatched message, a callback that raises has its failure
caught and recorded at the dispatch site and not propagated (`propagate`
returns `.ok`), and every live callback registered for the message (all-topics
or topic-specific) is invoked regardless of what the other callbacks do. -/
theorem callback_error_contained (loads : Bytes → Option Event)
    (st : ClientState) (frame t body : Bytes) (p : Payload)
    (hsplit : pySplit1 frame = some (t, body))
    (hdec : decodePayload loads t body = .ok p) :
    ∃ st2 log caught, propagate loads st frame = .ok (st2, log, caught) ∧
      (∀ r ∈ st.callback_all, r.alive = true → (r.cbId, p) ∈ log) ∧
      (∀ refs, dictGet st.callback_specific t = some refs →
        ∀ r ∈ refs, r.alive = true → (r.cbId, p) ∈ log) ∧
      (∀ r ∈ st.callback_all, r.alive = true → r.raises = true →
        r.cbId ∈ caught) ∧
      (∀ refs, dictGet st.callback_specific t = some refs →
        ∀ r ∈ refs, r.alive = true → r.raises = true → r.cbId ∈ caught) := by
  by_cases hne : st.callback_all = [] ∧ st.callback_specific = []
  · refine ⟨st, [], [], propagate_nobody loads st frame hne, ?_, ?_, ?_, ?_⟩
    · intro r hr
      rw [hne.1] at hr
      cases hr
    · intro refs hrefs
      rw [hne.2] at hrefs
      cases hrefs
    · intro r hr
      rw [hne.1] at hr
      cases hr
    · intro refs hrefs
      rw [hne.2] at hrefs
      cases hrefs
  · cases hget : dictGet st.callback_specific t with
    | none =>
        rw [propagate_listening loads st frame t body p hsplit hdec hne,
          dispatchLists_none st t p hget]
        refine ⟨_, _, _, rfl, ?_, ?_, ?_, ?_⟩
        · intro r hr ha
          exact List.mem_map.mpr ⟨r, List.mem_filter.mpr ⟨hr, ha⟩, rfl⟩
        · intro refs hrefs
          exact Option.noConfusion hrefs
        · intro r hr ha hraise
          exact List.mem_map.mpr
            ⟨r, List.mem_filter.mpr ⟨hr, by simp [ha, hraise]⟩, rfl⟩
        · intro refs hrefs
          exact Option.noConfusion hrefs
    | some refs =>
        rw [propagate_listening loads st frame t body p hsplit hdec hne,
          dispatchLists_some st t p refs hget]
        refine ⟨_, _, _, rfl, ?_, ?_, ?_, ?_⟩
        · intro r hr ha
          exact List.mem_append.mpr (.inl
            (List.mem_map.mpr ⟨r, List.mem_filter.mpr ⟨hr, ha⟩, rfl⟩))
        · intro refs2 hrefs2 r hr ha
          injection hrefs2 with he
          subst he
          exact List.mem_append.mpr (.inr
            (List.mem_map.mpr ⟨r, List.mem_filter.mpr ⟨hr, ha⟩, rfl⟩))
        · intro r hr ha hraise
          exact List.mem_append.mpr (.inl
            (List.mem_map.mpr
              ⟨r, List.mem_filter.mpr ⟨hr, by simp [ha, hraise]⟩, rfl⟩))
        · intro refs2 hrefs2 r hr ha hraise
          injection hrefs2 with he
          subst he
          exact List.mem_append.mpr (.inr
            (List.mem_map.mpr
              ⟨r, List.mem_filter.mpr ⟨hr, by simp [ha, hraise]⟩, rfl⟩))

theorem callback_error_contained_witness :
    pySplit1 (strBytes "tick ok") = some (strBytes "tick", strBytes "ok") ∧
    decodePayload (fun b => if b = strBytes "ok" then some [] else none)
        (strBytes "tick") (strBytes "ok") = .ok (Payload.parsed []) ∧
    ∃ st2 log caught,
      propagate (fun b => if b = strBytes "ok" then some [] else none)
          ⟨[CB.mk 3 true true, CB.mk 4 true false], [], false⟩
          (strBytes "tick ok") = .ok (st2, log, caught) ∧
      (∀ r ∈ [CB.mk 3 true true, CB.mk 4 true false], r.alive = true →
        (r.cbId, Payload.parsed []) ∈ log) ∧
      (∀ refs, dictGet ([] : List (Bytes × List CB)) (strBytes "tick") =
          some refs →
        ∀ r ∈ refs, r.alive = true → (r.cbId, Payload.parsed []) ∈ log) ∧
      (∀ r ∈ [CB.mk 3 true true, CB.mk 4 true false], r.alive = true →
        r.raises = true → r.cbId ∈ caught) ∧
      (∀ refs, dictGet ([] : List (Bytes × List CB)) (strBytes "tick") =
          some refs →
        ∀ r ∈ refs, r.alive = true → r.raises = true → r.cbId ∈ caught) :=
  ⟨by decide, by rfl,
   callback_error_contained (fun b => if b = strBytes "ok" then some [] else none)
     ⟨[CB.mk 3 true true, CB.mk 4 true false], [], false⟩
     (strBytes "tick ok") (strBytes "tick") (strBytes "ok") (Payload.parsed [])
     (by decide) (by rfl)⟩

/-- C6: a registered callback whose weak reference has died before the next
message on its topic is not invoked by the dispatch for that topic, the
dispatch does not raise (`propagate` returns `.ok`), the dead entry is
removed from the registry, and the mapping entry of the topic is deleted entirely
once its list becomes empty, so a later registration count reflects the
removal. -/
theorem dead_callback_pruned (loads : Bytes → Option Event) (st : ClientState)
    (frame t body : Bytes) (p : Payload) (refs : List CB) (cb : CB)
    (hsplit : pySplit1 frame = some (t, body))
    (hdec : decodePayload loads t body = .ok p)
    (hget : dictGet st.callback_specific t = some refs)
    (hmem : cb ∈ refs) (hdead : cb.alive = false)
    (huniq : ∀ r, r ∈ st.callback_all ∨ r ∈ refs → r.alive = true →
      r.cbId ≠ cb.cbId) :
    ∃ st2 log caught, propagate loads st frame = .ok (st2, log, caught) ∧
      (∀ q, (cb.cbId, q) ∉ log) ∧
      dictGet st2.callback_specific t =
        (if (refs.filter (fun r => r.alive)).length = 0 then none
         else some (refs.filter (fun r => r.alive))) ∧
      st2.callback_all = st.callback_all.filter (fun r => r.alive) := by
  have hne : ¬(st.callback_all = [] ∧ st.callback_specific = []) := by
    intro hc
    rw [hc.2] at hget
    cases hget
  rw [propagate_listening loads st frame t body p hsplit hdec hne,
    dispatchLists_some st t p refs hget]
  refine ⟨_, _, _, rfl, ?_, ?_, rfl⟩
  · intro q hq
    rcases List.mem_append.mp hq with hq1 | hq1
    · rcases List.mem_map.mp hq1 with ⟨r, hr, hre⟩
      have ha : r.alive = true := (List.mem_filter.mp hr).2
      exact huniq r (.inl (List.mem_filter.mp hr).1) ha
        (congrArg Prod.fst hre)
    · rcases List.mem_map.mp hq1 with ⟨r, hr, hre⟩
      have ha : r.alive = true := (List.mem_filter.mp hr).2
      exact huniq r (.inr (List.mem_filter.mp hr).1) ha
        (congrArg Prod.fst hre)
  · by_cases hl : (refs.filter (fun r => r.alive)).length = 0
    · rw [if_pos hl, if_pos hl]
      exact dictGet_dictDel_self st.callback_specific t
    · rw [if_neg hl, if_neg hl]
      exact dictGet_dictSet_self st.callback_specific t _

theorem dead_callback_pruned_witness :
    pySplit1 (strBytes "tick ok") = some (strBytes "tick", strBytes "ok") ∧
    decodePayload (fun b => if b = strBytes "ok" then some [] else none)
        (strBytes "tick") (strBytes "ok") = .ok (Payload.parsed []) ∧
    dictGet [(strBytes "tick", [CB.mk 7 false false])] (strBytes "tick") =
      some [CB.mk 7 false false] ∧
    CB.mk 7 false false ∈ [CB.mk 7 false false] ∧
    (CB.mk 7 false false).alive = false ∧
    ∃ st2 log caught,
      propagate (fun b => if b = strBytes "ok" then some [] else none)
          ⟨[], [(strBytes "tick", [CB.mk 7 false false])], false⟩
          (strBytes "tick ok") = .ok (st2, log, caught) ∧
      (∀ q, ((CB.mk 7 false false).cbId, q) ∉ log) ∧
      dictGet st2.callback_specific (strBytes "tick") =
        (if (([CB.mk 7 false false].filter (fun r => r.alive)).length = 0)
         then none
         else some ([CB.mk 7 false false].filter (fun r => r.alive))) ∧
      st2.callback_all = [].filter (fun r => r.alive) :=
  ⟨by decide, by rfl, by decide, by decide, by decide,
   dead_callback_pruned (fun b => if b = strBytes "ok" then some [] else none)
     ⟨[], [(strBytes "tick", [CB.mk 7 false false])], false⟩
     (strBytes "tick ok") (strBytes "tick") (strBytes "ok") (Payload.parsed [])
     [CB.mk 7 false false] (CB.mk 7 false false) (by decide) (by rfl)
     (by decide) (by decide) (by decide)
     (by intro r hr ha
         rcases hr with hr | hr
         · cases hr
         · rcases List.mem_singleton.mp hr with rfl
           cases ha)⟩

/-! Helper lemmas for the shutdown flag and the receive loop. -/

theorem dispatchLists_shutdown (st : ClientState) (t : Bytes) (p : Payload) :
    (dispatchLists st t p).1.shutdown = st.shutdown := by
  cases hget : dictGet st.callback_specific t with
  | none => rw [dispatchLists_none st t p hget]
  | some refs => rw [dispatchLists_some st t p refs hget]

theorem register_shutdown (st : ClientState) (cb : CB) (t : Option String) :
    (register st cb t).shutdown = st.shutdown := by
  cases t <;> rfl

theorem propagate_ok_shape (loads : Bytes → Option Event) (st : ClientState)
    (frame : Bytes) (out : ClientState × List (Nat × Payload) × List Nat)
    (h : propagate loads st frame = .ok out) :
    out = (st, [], []) ∨ ∃ t p, out = dispatchLists st t p := by
  unfold propagate at h
  split at h
  · injection h with he
    exact .inl he.symm
  · split at h
    · exact Except.noConfusion h
    · split at h
      · exact Except.noConfusion h
      · injection h with he
        exact .inr ⟨_, _, he.symm⟩

theorem propagate_shutdown (loads : Bytes → Option Event) (st : ClientState)
    (frame : Bytes) (out : ClientState × List (Nat × Payload) × List Nat)
    (h : propagate loads st frame = .ok out) :
    out.1.shutdown = st.shutdown := by
  rcases propagate_ok_shape loads st frame out h with he | ⟨t, p, he⟩
  · rw [he]
  · rw [he]
    exact dispatchLists_shutdown st t p

theorem runFrames_shutdown (loads : Bytes → Option Event) :
    ∀ (frames : List Bytes) (st : ClientState),
      (runFrames loads st frames).state.shutdown = st.shutdown
  | [], _ => rfl
  | f :: rest, st => by
      unfold runFrames
      by_cases hs : st.shutdown = true
      · rw [if_pos hs]
      · rw [if_neg hs]
        cases hp : propagate loads st f with
        | error e => rfl
        | ok out =>
            obtain ⟨st1, out2⟩ := out
            obtain ⟨log1, caught1⟩ := out2
            dsimp only
            have h1 := runFrames_shutdown loads rest st1
            have h2 := propagate_shutdown loads st f (st1, log1, caught1) hp
            rw [h1]
            exact h2

/-- C10: the `shutdown` flag is `False` at construction and no operation of
the `Client` class (`register`, `propagate`, or the `run` loop itself) ever
sets it to `True`: every operation preserves the flag, so a loop started with
`shutdown = False` can never observe `True` through the own interface
of the class. -/
theorem shutdown_never_set :
    clientInit.shutdown = false ∧
    (∀ st cb t, (register st cb t).shutdown = st.shutdown) ∧
    (∀ loads st frame out, propagate loads st frame = .ok out →
      out.1.shutdown = st.shutdown) ∧
    (∀ loads st frames, (runFrames loads st frames).state.shutdown =
      st.shutdown) ∧
    (∀ loads st frames, st.shutdown = false →
      (runFrames loads st frames).state.shutdown = false) :=
  ⟨rfl, register_shutdown, propagate_shutdown,
   fun loads st frames => runFrames_shutdown loads frames st,
   fun loads st frames h => by
     rw [runFrames_shutdown loads frames st]
     exact h⟩

theorem shutdown_never_set_witness :
    (register clientInit (CB.mk 0 true false) none).shutdown =
      clientInit.shutdown :=
  shutdown_never_set.2.1 clientInit (CB.mk 0 true false) none

/-- C2: divergence evidence: with a live callback registered, a frame whose
body fails structured-data decoding makes `propagate` raise, the exception
escapes `Client.run` (which has no handler around `propagate`), and the
receive loop terminates with the remaining frames unprocessed — the log stays
empty and the error is reported as the uncaught exception of the loop.  The same
well-formed second frame, arriving on a live loop, is dispatched normally. -/
theorem decode_failure_terminates_loop :
    runFrames (fun b => if b = strBytes "ok" then some [] else none)
        ⟨[CB.mk 0 true false], [], false⟩
        [strBytes "tick bad", strBytes "tick ok"] =
      ⟨⟨[CB.mk 0 true false], [], false⟩, [], [], some .decodeError⟩ ∧
    runFrames (fun b => if b = strBytes "ok" then some [] else none)
        ⟨[CB.mk 0 true false], [], false⟩
        [strBytes "tick ok"] =
      ⟨⟨[CB.mk 0 true false], [], false⟩, [(0, Payload.parsed [])], [],
        none⟩ :=
  ⟨rfl, rfl⟩

/-! Helper lemmas about UTF-8 byte strings and decimal digits. -/

theorem charUTF8_ascii (c : Char) (h : c.toNat < 128) :
    charUTF8 c = [c.toNat] := by
  unfold charUTF8
  dsimp only
  rw [if_pos h]

theorem strBytes_append (a b : String) :
    strBytes (a ++ b) = strBytes a ++ strBytes b := by
  unfold strBytes
  rw [String.data_append, List.flatMap_append]

theorem digitChar_digit : ∀ m, m < 10 →
    48 ≤ (Nat.digitChar m).toNat ∧ (Nat.digitChar m).toNat ≤ 57 := by decide

theorem toDigitsCore_digits :
    ∀ (fuel n : Nat) (acc : List Char),
      (∀ c ∈ acc, 48 ≤ c.toNat ∧ c.toNat ≤ 57) →
      ∀ c ∈ Nat.toDigitsCore 10 fuel n acc, 48 ≤ c.toNat ∧ c.toNat ≤ 57
  | 0, n, acc, hacc => by
      intro c hc
      rw [show Nat.toDigitsCore 10 0 n acc = acc from rfl] at hc
      exact hacc c hc
  | fuel + 1, n, acc, hacc => by
      intro c hc
      rw [show Nat.toDigitsCore 10 (fuel + 1) n acc =
          (if n / 10 = 0 then Nat.digitChar (n % 10) :: acc
           else Nat.toDigitsCore 10 fuel (n / 10)
             (Nat.digitChar (n % 10) :: acc)) from rfl] at hc
      have hd := digitChar_digit (n % 10) (Nat.mod_lt n (by omega))
      by_cases h0 : n / 10 = 0
      · rw [if_pos h0] at hc
        rcases List.mem_cons.mp hc with rfl | hc2
        · exact hd
        · exact hacc c hc2
      · rw [if_neg h0] at hc
        refine toDigitsCore_digits fuel (n / 10) _ ?_ c hc
        intro c2 hc2
        rcases List.mem_cons.mp hc2 with rfl | hc3
        · exact hd
        · exact hacc c2 hc3

theorem toDigitsCore_ne_nil :
    ∀ (fuel n : Nat) (acc : List Char), acc ≠ [] →
      Nat.toDigitsCore 10 fuel n acc ≠ []
  | 0, n, acc, h => by
      rw [show Nat.toDigitsCore 10 0 n acc = acc from rfl]
      exact h
  | fuel + 1, n, acc, h => by
      rw [show Nat.toDigitsCore 10 (fuel + 1) n acc =
          (if n / 10 = 0 then Nat.digitChar (n % 10) :: acc
           else Nat.toDigitsCore 10 fuel (n / 10)
             (Nat.digitChar (n % 10) :: acc)) from rfl]
      by_cases h0 : n / 10 = 0
      · rw [if_pos h0]
        exact List.cons_ne_nil _ _
      · rw [if_neg h0]
        exact toDigitsCore_ne_nil fuel (n / 10) _ (List.cons_ne_nil _ _)

theorem toDigits_ne_nil (n : Nat) : Nat.toDigits 10 n ≠ [] := by
  rw [show Nat.toDigits 10 n =
      (if n / 10 = 0 then [Nat.digitChar (n % 10)]
       else Nat.toDigitsCore 10 n (n / 10) [Nat.digitChar (n % 10)]) from rfl]
  by_cases h0 : n / 10 = 0
  · rw [if_pos h0]
    exact List.cons_ne_nil _ _
  · rw [if_neg h0]
    exact toDigitsCore_ne_nil n (n / 10) _ (List.cons_ne_nil _ _)

theorem reprData (n : Nat) : (Nat.repr n).data = Nat.toDigits 10 n := rfl

theorem strBytes_repr_digits (n : Nat) :
    ∀ b ∈ strBytes (Nat.repr n), 48 ≤ b ∧ b ≤ 57 := by
  intro b hb
  unfold strBytes at hb
  rw [reprData] at hb
  rcases List.mem_flatMap.mp hb with ⟨c, hc, hbc⟩
  have hd := toDigitsCore_digits (n + 1) n []
    (by intro c2 hc2; cases hc2) c hc
  rw [charUTF8_ascii c (by omega)] at hbc
  rcases List.mem_singleton.mp hbc with rfl
  exact hd

theorem strBytes_repr_ne_nil (n : Nat) : strBytes (Nat.repr n) ≠ [] := by
  unfold strBytes
  rw [reprData]
  cases hD : Nat.toDigits 10 n with
  | nil => exact absurd hD (toDigits_ne_nil n)
  | cons c cs =>
      intro h
      rw [List.flatMap_cons] at h
      have hc : 48 ≤ c.toNat ∧ c.toNat ≤ 57 := by
        refine toDigitsCore_digits (n + 1) n [] (by intro c2 hc2; cases hc2) c ?_
        rw [show Nat.toDigitsCore 10 (n + 1) n [] = Nat.toDigits 10 n from rfl,
          hD]
        exact List.mem_cons_self c cs
      rw [charUTF8_ascii c (by omega)] at h
      simp at h

theorem digit_not_space {b : Nat} (h : 48 ≤ b) : isSpaceByte b = false := by
  unfold isSpaceByte
  simp only [Bool.or_eq_false_iff, beq_eq_false_iff_ne, ne_eq]
  omega

/-! Helper lemmas about the frame split. -/

theorem takeWhile_token (p : Nat → Bool) :
    ∀ (tok : Bytes) (x : Nat) (rest : Bytes),
      (∀ b ∈ tok, p b = true) → p x = false →
      (tok ++ x :: rest).takeWhile p = tok ∧
        (tok ++ x :: rest).dropWhile p = x :: rest
  | [], x, rest => by
      intro _ hx
      constructor
      · simp [List.takeWhile_cons, hx]
      · simp [List.dropWhile_cons, hx]
  | a :: tok, x, rest => by
      intro hall hx
      have ha : p a = true := hall a (List.mem_cons_self a tok)
      obtain ⟨ih1, ih2⟩ := takeWhile_token p tok x rest
        (fun b hb => hall b (List.mem_cons_of_mem a hb)) hx
      constructor
      · simp [List.cons_append, List.takeWhile_cons, ha, ih1]
      · simp [List.cons_append, List.dropWhile_cons, ha, ih2]

theorem pySplit1_token (tok : Bytes) (r0 : Nat) (rest1 : Bytes)
    (h1 : tok ≠ []) (h2 : ∀ b ∈ tok, isSpaceByte b = false)
    (hr0 : isSpaceByte r0 = false) :
    pySplit1 (tok ++ 32 :: r0 :: rest1) = some (tok, r0 :: rest1) := by
  obtain ⟨t0, tok2, rfl⟩ : ∃ t0 tok2, tok = t0 :: tok2 := by
    cases tok with
    | nil => exact absurd rfl h1
    | cons t0 tok2 => exact ⟨t0, tok2, rfl⟩
  have ht0 : isSpaceByte t0 = false := h2 t0 (List.mem_cons_self _ _)
  obtain ⟨hw1, hw2⟩ := takeWhile_token (fun b => !isSpaceByte b)
    (t0 :: tok2) 32 (r0 :: rest1)
    (fun b hb => by simp [h2 b hb]) (by decide)
  unfold pySplit1
  dsimp only
  have hdrop1 : List.dropWhile isSpaceByte ((t0 :: tok2) ++ 32 :: r0 :: rest1)
      = (t0 :: tok2) ++ 32 :: r0 :: rest1 := by
    rw [List.cons_append, List.dropWhile_cons, if_neg (by simp [ht0])]
  rw [hdrop1, hw1, hw2]
  have hdrop2 : List.dropWhile isSpaceByte (32 :: r0 :: rest1) = r0 :: rest1 := by
    rw [List.dropWhile_cons, if_pos (by decide), List.dropWhile_cons,
      if_neg (by simp [hr0])]
  rw [hdrop2]
  simp

theorem lastFour_bulk (xs : Bytes) :
    lastFour (xs ++ [59, 98, 117, 108, 107]) = bulkBytes := by
  unfold lastFour bulkBytes
  have hlen : (xs ++ [59, 98, 117, 108, 107]).length = xs.length + 5 := by
    simp
  rw [hlen, show xs.length + 5 - 4 = xs.length + 1 from by omega,
    List.drop_append 1]
  rfl

theorem decodePayload_bulk (loads : Bytes → Option Event) (t body : Bytes)
    (h : lastFour t = bulkBytes) :
    decodePayload loads t body = .ok (.raw body) := by
  unfold decodePayload
  rw [if_pos h]

theorem encode_bulk_split (topic : String) (pid : Nat) (payload : Bytes) :
    encode_bulk topic pid payload =
      (strBytes topic ++ [59, 98, 117, 108, 107]) ++ 32 ::
        (strBytes (Nat.repr pid) ++ 32 :: payload) := by
  unfold encode_bulk
  rw [strBytes_append, strBytes_append, strBytes_append,
    show strBytes ";bulk " = [59, 98, 117, 108, 107, 32] from rfl,
    show strBytes " " = [32] from rfl]
  simp [List.append_assoc]

/-- C1 counterexample: publish the event named `frame` with bulk payload
bytes `[0, 1, 2]` and publication id 5.  The bulk frame on the wire is
`frame;bulk 5 ` followed by the payload; the subscriber decoder strips only
the leading `<topic><space>`, so the callback receives the bytes
`[53, 32, 0, 1, 2]` (decimal id `5`, a space, then the payload) — not the
original bulk payload `[0, 1, 2]`: the id-and-space lead is not stripped
before callback invocation, refuting the claim as stated. -/
theorem bulk_id_not_stripped :
    propagate (fun _ => none) ⟨[CB.mk 0 true false], [], false⟩
        (encode_bulk "frame" 5 [0, 1, 2]) =
      .ok (⟨[CB.mk 0 true false], [], false⟩,
        [(0, Payload.raw [53, 32, 0, 1, 2])], []) ∧
    Payload.raw [53, 32, 0, 1, 2] ≠ Payload.raw [0, 1, 2] :=
  ⟨rfl, by decide⟩

/-- C1 (amended): a published bulk frame is delivered to callbacks as raw
bytes and is never passed through the structured-data parser (the result of
`propagate` is independent of the `loads` codec); the decoder strips only the
leading `<topic><space>`, so the bytes handed to every invoked callback are
`<decimal publication id><space><bulk payload>`, and dropping that
id-and-space lead from the delivered bytes recovers the original bulk payload
exactly. -/
theorem bulk_dispatch_raw_delivery (loads loads2 : Bytes → Option Event)
    (st : ClientState) (topic : String) (pid : Nat) (payload : Bytes)
    (hne : strBytes topic ≠ [])
    (hws : ∀ b ∈ strBytes topic, isSpaceByte b = false) :
    propagate loads st (encode_bulk topic pid payload) =
      propagate loads2 st (encode_bulk topic pid payload) ∧
    ∃ st2 log caught,
      propagate loads st (encode_bulk topic pid payload) =
        .ok (st2, log, caught) ∧
      (∀ e ∈ log,
        e.2 = Payload.raw (strBytes (Nat.repr pid) ++ 32 :: payload)) ∧
      (strBytes (Nat.repr pid) ++ 32 :: payload).drop
          ((strBytes (Nat.repr pid)).length + 1) = payload := by
  have hDne := strBytes_repr_ne_nil pid
  obtain ⟨d0, D2, hD⟩ : ∃ d0 D2, strBytes (Nat.repr pid) = d0 :: D2 := by
    cases hE : strBytes (Nat.repr pid) with
    | nil => exact absurd hE hDne
    | cons d0 D2 => exact ⟨d0, D2, rfl⟩
  have hd0 : isSpaceByte d0 = false := by
    have hdig := strBytes_repr_digits pid d0
      (by rw [hD]; exact List.mem_cons_self _ _)
    exact digit_not_space hdig.1
  have htok_ne : (strBytes topic ++ [59, 98, 117, 108, 107]) ≠ [] := by
    simp
  have htok_ws : ∀ b ∈ strBytes topic ++ [59, 98, 117, 108, 107],
      isSpaceByte b = false := by
    intro b hb
    rcases List.mem_append.mp hb with hb1 | hb1
    · exact hws b hb1
    · have hcases : b = 59 ∨ b = 98 ∨ b = 117 ∨ b = 108 ∨ b = 107 := by
        simpa using hb1
      rcases hcases with rfl | rfl | rfl | rfl | rfl <;> rfl
  have hsplit : pySplit1 (encode_bulk topic pid payload) =
      some (strBytes topic ++ [59, 98, 117, 108, 107],
        strBytes (Nat.repr pid) ++ 32 :: payload) := by
    rw [encode_bulk_split, hD, List.cons_append]
    exact pySplit1_token _ d0 _ htok_ne htok_ws hd0
  have hdec : ∀ (ld : Bytes → Option Event),
      decodePayload ld (strBytes topic ++ [59, 98, 117, 108, 107])
        (strBytes (Nat.repr pid) ++ 32 :: payload) =
      .ok (.raw (strBytes (Nat.repr pid) ++ 32 :: payload)) :=
    fun ld => decodePayload_bulk ld _ _ (lastFour_bulk _)
  have hdrop : (strBytes (Nat.repr pid) ++ 32 :: payload).drop
      ((strBytes (Nat.repr pid)).length + 1) = payload := by
    rw [List.drop_append 1]
    rfl
  by_cases hempty : st.callback_all = [] ∧ st.callback_specific = []
  · refine ⟨?_, st, [], [], propagate_nobody loads st _ hempty, ?_, hdrop⟩
    · rw [propagate_nobody loads st _ hempty,
        propagate_nobody loads2 st _ hempty]
    · intro e he
      cases he
  · have hp1 := propagate_listening loads st (encode_bulk topic pid payload)
      _ _ _ hsplit (hdec loads) hempty
    have hp2 := propagate_listening loads2 st (encode_bulk topic pid payload)
      _ _ _ hsplit (hdec loads2) hempty
    refine ⟨by rw [hp1, hp2], ?_⟩
    cases hget : dictGet st.callback_specific
        (strBytes topic ++ [59, 98, 117, 108, 107]) with
    | none =>
        rw [dispatchLists_none st _ _ hget] at hp1
        refine ⟨_, _, _, hp1, ?_, hdrop⟩
        intro e he
        rcases List.mem_map.mp he with ⟨r, _, hre⟩
        rw [← hre]
    | some refs =>
        rw [dispatchLists_some st _ _ refs hget] at hp1
        refine ⟨_, _, _, hp1, ?_, hdrop⟩
        intro e he
        rcases List.mem_append.mp he with h1 | h1 <;>
          · rcases List.mem_map.mp h1 with ⟨r, _, hre⟩
            rw [← hre]

theorem bulk_dispatch_raw_delivery_witness :
    (strBytes "frame" ≠ []) ∧
    (∀ b ∈ strBytes "frame", isSpaceByte b = false) ∧
    (propagate (fun _ => none) ⟨[CB.mk 0 true false], [], false⟩
        (encode_bulk "frame" 5 [0, 1, 2]) =
      propagate (fun _ => some [("x", JVal.jnull)])
        ⟨[CB.mk 0 true false], [], false⟩
        (encode_bulk "frame" 5 [0, 1, 2]) ∧
    ∃ st2 log caught,
      propagate (fun _ => none) ⟨[CB.mk 0 true false], [], false⟩
          (encode_bulk "frame" 5 [0, 1, 2]) = .ok (st2, log, caught) ∧
      (∀ e ∈ log,
        e.2 = Payload.raw (strBytes (Nat.repr 5) ++ 32 :: [0, 1, 2])) ∧
      (strBytes (Nat.repr 5) ++ 32 :: [0, 1, 2]).drop
          ((strBytes (Nat.repr 5)).length + 1) = [0, 1, 2]) :=
  ⟨by decide, by decide,
   bulk_dispatch_raw_delivery (fun _ => none)
     (fun _ => some [("x", JVal.jnull)]) ⟨[CB.mk 0 true false], [], false⟩
     "frame" 5 [0, 1, 2] (by decide) (by decide)⟩

end POT.Publish
